import Mathlib

/-!
Verification of the aeon VM runtime core against its specification.

The Rust sources under `src/vm/src` (`process.rs`, `thread.rs`,
`execution_context.rs`, `bytecode_parser.rs`) are shallowly embedded below:
pure functions become Lean functions, stateful methods become explicit state
transformers, machine integers are modelled as `Nat` bit patterns with the
relevant width bounds made explicit, and fallible code returns `Except`.
Types whose defining module is not part of the provided sources
(`ObjectPointer`, `Binding`, `Register`, `CallFrame`) are modelled from the
specification; each such definition carries a doc comment saying so.
-/

set_option maxHeartbeats 1000000

namespace Aeon

/-- Modelled from the spec: an `ObjectPointer` carries a classification
(permanent / young / mature) knowable in O(1) without dereferencing, and
equality is by address (`object_pointer.rs` is not among the provided
sources).  The classification is recorded as a tag field. -/
inductive PtrKind where
  | young
  | mature
  | permanent
deriving DecidableEq, Repr

/-- Modelled from the spec: a value type wrapping a raw heap address plus the
tag classification. -/
structure ObjectPointer where
  addr : Nat
  kind : PtrKind
deriving DecidableEq, Repr

/-- Modelled from the spec: `is_young` classification of a pointer. -/
def ObjectPointer.is_young (p : ObjectPointer) : Bool :=
  match p.kind with
  | PtrKind.young => true
  | _ => false

/-- Modelled from the spec: `is_mature` classification of a pointer. -/
def ObjectPointer.is_mature (p : ObjectPointer) : Bool :=
  match p.kind with
  | PtrKind.mature => true
  | _ => false

/-- Modelled from the spec: `is_local` (local = young or mature). -/
def ObjectPointer.is_local (p : ObjectPointer) : Bool :=
  p.is_young || p.is_mature

/-- The process status enum from `process.rs`. -/
inductive ProcessStatus where
  | scheduled
  | running
  | suspended
  | suspendedByGc
  | failed
  | finished
deriving DecidableEq, Repr

/-- The part of a `Process`'s state that `set_status_without_overwriting_gc_status`
reads and writes: the `status` field (behind its mutex in the source) and the
`suspend_for_gc` flag of `LocalData`. -/
structure StatusState where
  status : ProcessStatus
  suspend_for_gc : Bool
deriving DecidableEq, Repr

/-- `Process::set_status_without_overwriting_gc_status` from `process.rs`:
the status is overwritten only when it is not `SuspendedByGc`; if the
`suspend_for_gc` flag is set the flag is cleared and the status becomes
`SuspendedByGc` instead of the requested one. -/
def set_status_without_overwriting_gc_status (st : StatusState)
    (new_status : ProcessStatus) : StatusState :=
  let overwrite :=
    match st.status with
    | ProcessStatus.suspendedByGc => false
    | _ => true
  if overwrite then
    if st.suspend_for_gc then
      { status := ProcessStatus.suspendedByGc, suspend_for_gc := false }
    else
      { st with status := new_status }
  else
    st

/-- `Process::write_barrier` from `process.rs`, acting on the remembered set:
the written-to pointer is inserted when it is mature and the written pointer
is young; otherwise the remembered set is unchanged.  The `HashSet` is
modelled as a `Finset`. -/
def write_barrier (remembered_set : Finset ObjectPointer)
    (written_to written : ObjectPointer) : Finset ObjectPointer :=
  if written_to.is_mature && written.is_young then
    insert written_to remembered_set
  else
    remembered_set

/-- A sequence of `write_barrier` calls (first call first in the list),
with no intervening collection. -/
def run_write_barriers (remembered_set : Finset ObjectPointer)
    (calls : List (ObjectPointer × ObjectPointer)) : Finset ObjectPointer :=
  calls.foldl (fun rs c => write_barrier rs c.1 c.2) remembered_set

/-- One bytecode instruction (`instruction.rs` is not among the provided
sources; the fields are fixed by the wire format in §6 of the spec and by
`read_instruction` in `bytecode_parser.rs`).  The `InstructionType` enum is
obtained in the source by transmuting a `u16`, so it is modelled as the
`u16` bit pattern itself. -/
structure Instruction where
  instruction_type : Nat
  arguments : List Nat
  line : Nat
  column : Nat
deriving DecidableEq, Repr

/-- The `CompiledCode` record, with the fields read by `read_compiled_code`
in `bytecode_parser.rs`.  Rust `String`s are modelled as their UTF-8 byte
sequences, `i64` and `f64` literals as their 64-bit big-endian bit
patterns. -/
inductive CompiledCode where
  | mk
      (name : List Nat)
      (file : List Nat)
      (line : Nat)
      (arguments : Nat)
      (required_arguments : Nat)
      (rest_argument : Bool)
      (locals : List (List Nat))
      (instructions : List Instruction)
      (integer_literals : List Nat)
      (float_literals : List Nat)
      (string_literals : List (List Nat))
      (code_objects : List CompiledCode)

def CompiledCode.name : CompiledCode → List Nat
  | .mk x _ _ _ _ _ _ _ _ _ _ _ => x

def CompiledCode.file : CompiledCode → List Nat
  | .mk _ x _ _ _ _ _ _ _ _ _ _ => x

def CompiledCode.line : CompiledCode → Nat
  | .mk _ _ x _ _ _ _ _ _ _ _ _ => x

def CompiledCode.arguments : CompiledCode → Nat
  | .mk _ _ _ x _ _ _ _ _ _ _ _ => x

def CompiledCode.required_arguments : CompiledCode → Nat
  | .mk _ _ _ _ x _ _ _ _ _ _ _ => x

def CompiledCode.rest_argument : CompiledCode → Bool
  | .mk _ _ _ _ _ x _ _ _ _ _ _ => x

def CompiledCode.locals : CompiledCode → List (List Nat)
  | .mk _ _ _ _ _ _ x _ _ _ _ _ => x

def CompiledCode.instructions : CompiledCode → List Instruction
  | .mk _ _ _ _ _ _ _ x _ _ _ _ => x

def CompiledCode.integer_literals : CompiledCode → List Nat
  | .mk _ _ _ _ _ _ _ _ x _ _ _ => x

def CompiledCode.float_literals : CompiledCode → List Nat
  | .mk _ _ _ _ _ _ _ _ _ x _ _ => x

def CompiledCode.string_literals : CompiledCode → List (List Nat)
  | .mk _ _ _ _ _ _ _ _ _ _ x _ => x

def CompiledCode.code_objects : CompiledCode → List CompiledCode
  | .mk _ _ _ _ _ _ _ _ _ _ _ x => x

/-- Modelled from the spec: a `Binding` is an environment of dense local
slots (grow-on-write, unset slots read as errors), the `self` pointer, and
an optional parent binding (`binding.rs` is not among the provided
sources). -/
inductive Binding where
  | mk (locals : List (Option ObjectPointer)) (self_object : ObjectPointer)
      (parent : Option Binding)

def Binding.locals : Binding → List (Option ObjectPointer)
  | .mk x _ _ => x

def Binding.self_object : Binding → ObjectPointer
  | .mk _ x _ => x

def Binding.parent : Binding → Option Binding
  | .mk _ _ x => x

/-- Modelled from the spec: a fresh binding rooted at an object, with no
locals and no parent. -/
def Binding.new (object : ObjectPointer) : Binding :=
  Binding.mk [] object none

/-- Modelled from the spec: a fresh binding rooted at an object whose parent
is the given binding (lexical capture). -/
def Binding.with_parent (object : ObjectPointer) (parent : Binding) : Binding :=
  Binding.mk [] object (some parent)

/-- Grow-on-write slot update shared by `Binding` locals and `Register`
slots: indices beyond the current length are filled in as unset. -/
def set_slot (slots : List (Option ObjectPointer)) (index : Nat)
    (value : ObjectPointer) : List (Option ObjectPointer) :=
  (slots ++ List.replicate (index + 1 - slots.length) none).set index (some value)

/-- Modelled from the spec: writing a local (grow-on-write). -/
def Binding.set_local : Binding → Nat → ObjectPointer → Binding
  | .mk ls s p, index, value => Binding.mk (set_slot ls index value) s p

/-- Modelled from the spec: reading a local; an unset slot reads as an error
(`none`). -/
def Binding.get_local (b : Binding) (index : Nat) : Option ObjectPointer :=
  b.locals.getD index none

/-- Modelled from the spec: whether a local slot exists and is set. -/
def Binding.local_exists (b : Binding) (index : Nat) : Bool :=
  (b.get_local index).isSome

/-- Modelled from the spec: `Binding::push_pointers` appends a slot handle
for every live pointer reachable from this binding — each set local, `self`,
and transitively the parent chain.  Handles are modelled by the pointer
values held in the slots. -/
def Binding.push_pointers : Binding → List ObjectPointer
  | .mk ls s none => ls.filterMap id ++ [s]
  | .mk ls s (some p) => ls.filterMap id ++ [s] ++ p.push_pointers

/-- Modelled from the spec: a `Register` is a sparse mapping from small
integer indices to pointers; setting past the end grows the file and
grown-over slots are unset (`register.rs` is not among the provided
sources). -/
structure Register where
  slots : List (Option ObjectPointer)

def Register.new : Register :=
  Register.mk []

def Register.get (r : Register) (index : Nat) : Option ObjectPointer :=
  r.slots.getD index none

def Register.set (r : Register) (index : Nat) (value : ObjectPointer) : Register :=
  Register.mk (set_slot r.slots index value)

/-- Modelled from the spec: `Register::push_pointers` appends a slot handle
for every set register slot. -/
def Register.push_pointers (r : Register) : List ObjectPointer :=
  r.slots.filterMap id

/-- `ExecutionContext` from `execution_context.rs`: registers, binding,
compiled code handle, optional parent context, instruction index and return
register. -/
inductive ExecutionContext where
  | mk (register : Register) (binding : Binding) (code : CompiledCode)
      (parent : Option ExecutionContext) (instruction_index : Nat)
      (return_register : Option Nat)

def ExecutionContext.register : ExecutionContext → Register
  | .mk x _ _ _ _ _ => x

def ExecutionContext.binding : ExecutionContext → Binding
  | .mk _ x _ _ _ _ => x

def ExecutionContext.code : ExecutionContext → CompiledCode
  | .mk _ _ x _ _ _ => x

def ExecutionContext.parent : ExecutionContext → Option ExecutionContext
  | .mk _ _ _ x _ _ => x

def ExecutionContext.instruction_index : ExecutionContext → Nat
  | .mk _ _ _ _ x _ => x

def ExecutionContext.return_register : ExecutionContext → Option Nat
  | .mk _ _ _ _ _ x => x

/-- `ExecutionContext::new` from `execution_context.rs`. -/
def ExecutionContext.new (binding : Binding) (code : CompiledCode)
    (return_register : Option Nat) : ExecutionContext :=
  ExecutionContext.mk Register.new binding code none 0 return_register

/-- `ExecutionContext::with_object` from `execution_context.rs`. -/
def ExecutionContext.with_object (object : ObjectPointer) (code : CompiledCode)
    (return_register : Option Nat) : ExecutionContext :=
  ExecutionContext.new (Binding.new object) code return_register

/-- `ExecutionContext::with_binding` from `execution_context.rs`. -/
def ExecutionContext.with_binding (parent_binding : Binding) (code : CompiledCode)
    (return_register : Option Nat) : ExecutionContext :=
  ExecutionContext.new
    (Binding.with_parent parent_binding.self_object parent_binding) code
    return_register

/-- `ExecutionContext::set_parent` from `execution_context.rs`. -/
def ExecutionContext.set_parent : ExecutionContext → ExecutionContext → ExecutionContext
  | .mk r b cd _ ii rr, p => ExecutionContext.mk r b cd (some p) ii rr

/-- `ExecutionContext::get_register` / `set_register` forwarders. -/
def ExecutionContext.get_register (c : ExecutionContext) (index : Nat) :
    Option ObjectPointer :=
  c.register.get index

def ExecutionContext.set_register : ExecutionContext → Nat → ObjectPointer → ExecutionContext
  | .mk r b cd p ii rr, index, value =>
    ExecutionContext.mk (r.set index value) b cd p ii rr

def ExecutionContext.get_local (c : ExecutionContext) (index : Nat) :
    Option ObjectPointer :=
  c.binding.get_local index

def ExecutionContext.set_local : ExecutionContext → Nat → ObjectPointer → ExecutionContext
  | .mk r b cd p ii rr, index, value =>
    ExecutionContext.mk r (b.set_local index value) cd p ii rr

def ExecutionContext.self_object (c : ExecutionContext) : ObjectPointer :=
  c.binding.self_object

/-- The number of machine words: `usize` arithmetic in the source wraps
modulo `2 ^ 64` in release builds. -/
def USIZE : Nat := 2 ^ 64

/-- Wrapping `usize` subtraction, for operands below `2 ^ 64`. -/
def usize_sub (a b : Nat) : Nat :=
  (a + USIZE - b) % USIZE

/-- The loop body of `ExecutionContext::find_parent`: with `n` iterations
remaining, step `found` to its parent each time, returning `none` early when
the chain runs out. -/
def find_parent_loop : Option ExecutionContext → Nat → Option ExecutionContext
  | found, 0 => found
  | none, _ + 1 => none
  | some c, n + 1 => find_parent_loop c.parent n

/-- `ExecutionContext::find_parent` from `execution_context.rs`: start from
`self.parent()` and iterate `depth - 1` further times, where `depth - 1` is
computed with wrapping `usize` subtraction (the release-build behaviour; a
debug build panics on the underflow at `depth = 0`). -/
def ExecutionContext.find_parent (c : ExecutionContext) (depth : Nat) :
    Option ExecutionContext :=
  find_parent_loop c.parent (usize_sub depth 1)

/-- The specification's notion for `find_parent`: the ancestor exactly `k`
hops up the parent chain, `none` when the chain is shorter. -/
def hop : Nat → ExecutionContext → Option ExecutionContext
  | 0, c => some c
  | n + 1, c =>
    match c.parent with
    | none => none
    | some p => hop n p

/-- The number of strict ancestors of a context (the length of its parent
chain). -/
def ancestor_count : ExecutionContext → Nat
  | .mk _ _ _ none _ _ => 0
  | .mk _ _ _ (some p) _ _ => ancestor_count p + 1

/-- `ExecutionContext::contexts` from `execution_context.rs`: the context
chain from the context itself upward through its parents. -/
def ExecutionContext.contexts : ExecutionContext → List ExecutionContext
  | .mk r b cd none ii rr => [ExecutionContext.mk r b cd none ii rr]
  | .mk r b cd (some p) ii rr => ExecutionContext.mk r b cd (some p) ii rr :: p.contexts

/-- Modelled from the spec and from its uses in `process.rs`
(`call_frame.rs` is not among the provided sources): a call frame records
the compiled code and line it points at, plus an optional parent frame. -/
inductive CallFrame where
  | mk (code : CompiledCode) (line : Nat) (parent : Option CallFrame)

def CallFrame.parent : CallFrame → Option CallFrame
  | .mk _ _ x => x

def CallFrame.set_parent : CallFrame → CallFrame → CallFrame
  | .mk c l _, p => CallFrame.mk c l (some p)

/-- Modelled from the spec: `CallFrame::from_code` builds a parentless frame
for the given code at its first line. -/
def CallFrame.from_code (code : CompiledCode) : CallFrame :=
  CallFrame.mk code code.line none

/-- The single-mutator (`LocalData`) portion of a `Process` from
`process.rs`, restricted to the fields the verified operations read and
write.  The allocator, mailbox, and lock/condvar plumbing are concurrency
machinery outside this pure model. -/
structure Process where
  pid : Nat
  call_frame : CallFrame
  context : ExecutionContext
  suspend_for_gc : Bool
  remembered_set : Finset ObjectPointer

/-- `Process::from_code` from `process.rs`. -/
def Process.from_code (pid : Nat) (code : CompiledCode)
    (self_obj : ObjectPointer) : Process :=
  { pid := pid
    call_frame := CallFrame.from_code code
    context := ExecutionContext.with_object self_obj code none
    suspend_for_gc := false
    remembered_set := ∅ }

/-- `Process::push_context` from `process.rs`: the new context becomes
current and the previous current context becomes its parent. -/
def Process.push_context (p : Process) (context : ExecutionContext) : Process :=
  { p with context := context.set_parent p.context }

/-- `Process::pop_context` from `process.rs`: with no parent the call
returns early and nothing changes; otherwise the parent becomes current. -/
def Process.pop_context (p : Process) : Process :=
  match p.context.parent with
  | none => p
  | some par => { p with context := par }

/-- `Process::push_call_frame` from `process.rs`. -/
def Process.push_call_frame (p : Process) (frame : CallFrame) : Process :=
  { p with call_frame := frame.set_parent p.call_frame }

/-- `Process::pop_call_frame` from `process.rs`: with no parent frame the
call returns early and nothing changes. -/
def Process.pop_call_frame (p : Process) : Process :=
  match p.call_frame.parent with
  | none => p
  | some par => { p with call_frame := par }

def Process.set_local (p : Process) (index : Nat) (value : ObjectPointer) : Process :=
  { p with context := p.context.set_local index value }

def Process.get_local (p : Process) (index : Nat) : Option ObjectPointer :=
  p.context.get_local index

def Process.set_register (p : Process) (index : Nat) (value : ObjectPointer) : Process :=
  { p with context := p.context.set_register index value }

def Process.get_register (p : Process) (index : Nat) : Option ObjectPointer :=
  p.context.get_register index

def Process.self_object (p : Process) : ObjectPointer :=
  p.context.self_object

/-- `Process::roots` from `process.rs`: walk every context on the current
stack and append the binding's and then the register's pointer handles.  The
source distributes the contexts over a work-stealing deque and joins the
per-thread buffers; the parallel fan-out is an internal optimisation, so the
model collects the same handles sequentially.  Handles are modelled by the
pointer values held in the slots. -/
def Process.roots (p : Process) : List ObjectPointer :=
  p.context.contexts.flatMap fun c =>
    c.binding.push_pointers ++ c.register.push_pointers

/-- The spec's reachability through a binding: a pointer in one of the
binding's local slots, the binding's `self`, or the same transitively
through parent bindings. -/
inductive BindingReach : Binding → ObjectPointer → Prop where
  | local_slot (b : Binding) (q : ObjectPointer) :
      some q ∈ b.locals → BindingReach b q
  | self_obj (b : Binding) : BindingReach b b.self_object
  | parent (b pb : Binding) (q : ObjectPointer) :
      b.parent = some pb → BindingReach pb q → BindingReach b q

/-- The spec's notion of a pointer reachable from a process's contexts via
binding locals, parent bindings, register slots, or `self`. -/
def Reachable (p : Process) (q : ObjectPointer) : Prop :=
  ∃ c ∈ p.context.contexts,
    BindingReach c.binding q ∨ some q ∈ c.register.slots

/-- The scheduler-relevant state of a worker `Thread` from `thread.rs`:
the runnable-process queue (processes modelled by pid) and the flags.  The
condvar and join handle are concurrency plumbing outside this pure model. -/
structure Thread where
  process_queue : List Nat
  wake_up : Bool
  should_stop : Bool
  isolated : Bool

/-- `Thread::new` from `thread.rs`. -/
def Thread.new : Thread :=
  Thread.mk [] false false false

/-- `Thread::schedule` from `thread.rs`: push onto the end of the queue and
set the wake-up flag. -/
def Thread.schedule (t : Thread) (task : Nat) : Thread :=
  { t with process_queue := t.process_queue ++ [task], wake_up := true }

/-- `Thread::pop_process` from `thread.rs`: clear the wake-up flag and
remove and return the last element of the queue (`Vec::pop`); the source
`unwrap`s, which panics on an empty queue — modelled as `none`. -/
def Thread.pop_process (t : Thread) : Option Nat × Thread :=
  (t.process_queue.getLast?,
    { t with process_queue := t.process_queue.dropLast, wake_up := false })

/-- Parser error kinds from `bytecode_parser.rs`. -/
inductive ParserError where
  | invalidFile
  | invalidSignature
  | invalidVersion
  | invalidString
  | invalidInteger
  | invalidFloat
  | missingByte
deriving DecidableEq, Repr

/-- A reading step over the remaining byte stream, as in the source's
threading of the `Bytes<T>` iterator through each `read_*` function. -/
def ReadM (α : Type) : Type :=
  List Nat → Except ParserError (α × List Nat)

/-- The source's `try!` / `?` propagation: run `m`, feed its result and the
remaining bytes to `f`, propagating errors. -/
def rbind {α β : Type} (m : ReadM α) (f : α → ReadM β) : ReadM β := fun input =>
  match m input with
  | Except.error e => Except.error e
  | Except.ok (a, rest) => f a rest

/-- The byte loop shared by `read_u16` / `read_i32` / `read_i64` /
`read_f64` in `bytecode_parser.rs`: fill a `width`-byte buffer from the
stream (failing with `err` at end of stream) and interpret it big-endian
(`from_be`).  The accumulator carries the value of the bytes read so
far. -/
def read_be_loop (err : ParserError) : Nat → Nat → ReadM Nat
  | acc, 0 => fun input => Except.ok (acc, input)
  | acc, w + 1 => fun input =>
    match input with
    | [] => Except.error err
    | b :: rest => read_be_loop err (acc * 256 + b) w rest

def read_be (w : Nat) (err : ParserError) : ReadM Nat :=
  read_be_loop err 0 w

/-- `read_u8` from `bytecode_parser.rs`. -/
def read_u8 : ReadM Nat := fun input =>
  match input with
  | [] => Except.error ParserError.invalidInteger
  | b :: rest => Except.ok (b, rest)

/-- `read_u16` from `bytecode_parser.rs`. -/
def read_u16 : ReadM Nat :=
  read_be 2 ParserError.invalidInteger

/-- `read_i32` from `bytecode_parser.rs` (value as 32-bit pattern). -/
def read_i32 : ReadM Nat :=
  read_be 4 ParserError.invalidInteger

/-- `read_u32` from `bytecode_parser.rs`: `read_i32` reinterpreted, the
identity on bit patterns. -/
def read_u32 : ReadM Nat :=
  read_i32

/-- `read_i64` from `bytecode_parser.rs` (value as 64-bit pattern). -/
def read_i64 : ReadM Nat :=
  read_be 8 ParserError.invalidInteger

/-- `read_u64` from `bytecode_parser.rs`: `read_i64` reinterpreted. -/
def read_u64 : ReadM Nat :=
  read_i64

/-- `read_f64` from `bytecode_parser.rs`: eight big-endian bytes failing
with `InvalidFloat`; the float is modelled by its 64-bit bit pattern (the
source transmutes, so parsing is exact on patterns). -/
def read_f64 : ReadM Nat :=
  read_be 8 ParserError.invalidFloat

/-- The content loop of `read_string`: take exactly `size` bytes, failing
with `InvalidString` when the stream ends first. -/
def take_bytes : Nat → ReadM (List Nat)
  | 0 => fun input => Except.ok ([], input)
  | n + 1 => fun input =>
    match input with
    | [] => Except.error ParserError.invalidString
    | b :: rest =>
      match take_bytes n rest with
      | Except.error e => Except.error e
      | Except.ok (bs, rest2) => Except.ok (b :: bs, rest2)

/-- Whether a byte is a UTF-8 continuation byte (`0x80..0xBF`). -/
def utf8_cont (b : Nat) : Bool :=
  decide (128 ≤ b) && decide (b ≤ 191)

/-- Models the validation done by Rust's `String::from_utf8` inside
`read_string`: the standard UTF-8 acceptance automaton (RFC 3629),
rejecting overlong forms, surrogates, and code points above `U+10FFFF`. -/
def utf8_valid : List Nat → Bool
  | [] => true
  | b :: rest =>
    if b ≤ 127 then utf8_valid rest
    else if 194 ≤ b && b ≤ 223 then
      match rest with
      | c1 :: r => utf8_cont c1 && utf8_valid r
      | [] => false
    else if b = 224 then
      match rest with
      | c1 :: c2 :: r =>
        (decide (160 ≤ c1) && decide (c1 ≤ 191)) && utf8_cont c2 && utf8_valid r
      | _ => false
    else if 225 ≤ b && b ≤ 236 then
      match rest with
      | c1 :: c2 :: r => utf8_cont c1 && utf8_cont c2 && utf8_valid r
      | _ => false
    else if b = 237 then
      match rest with
      | c1 :: c2 :: r =>
        (decide (128 ≤ c1) && decide (c1 ≤ 159)) && utf8_cont c2 && utf8_valid r
      | _ => false
    else if 238 ≤ b && b ≤ 239 then
      match rest with
      | c1 :: c2 :: r => utf8_cont c1 && utf8_cont c2 && utf8_valid r
      | _ => false
    else if b = 240 then
      match rest with
      | c1 :: c2 :: c3 :: r =>
        (decide (144 ≤ c1) && decide (c1 ≤ 191)) && utf8_cont c2 && utf8_cont c3 &&
          utf8_valid r
      | _ => false
    else if 241 ≤ b && b ≤ 243 then
      match rest with
      | c1 :: c2 :: c3 :: r =>
        utf8_cont c1 && utf8_cont c2 && utf8_cont c3 && utf8_valid r
      | _ => false
    else if b = 244 then
      match rest with
      | c1 :: c2 :: c3 :: r =>
        (decide (128 ≤ c1) && decide (c1 ≤ 143)) && utf8_cont c2 && utf8_cont c3 &&
          utf8_valid r
      | _ => false
    else false

/-- `read_string` from `bytecode_parser.rs`: a `u64` size, then exactly
`size` content bytes, decoded as UTF-8 (a string is modelled by its byte
sequence; invalid UTF-8 is `InvalidString`). -/
def read_string : ReadM (List Nat) :=
  rbind read_u64 fun size =>
    rbind (take_bytes size) fun buff => fun input =>
      if utf8_valid buff then Except.ok (buff, input)
      else Except.error ParserError.invalidString

/-- The item loop of `read_vector`: run `reader` `amount` times. -/
def read_items {α : Type} (reader : ReadM α) : Nat → ReadM (List α)
  | 0 => fun input => Except.ok ([], input)
  | n + 1 =>
    rbind reader fun x =>
      rbind (read_items reader n) fun xs => fun input =>
        Except.ok (x :: xs, input)

/-- `read_vector` from `bytecode_parser.rs`: a `u64` count followed by that
many items. -/
def read_vector {α : Type} (reader : ReadM α) : ReadM (List α) :=
  rbind read_u64 fun amount => read_items reader amount

/-- `read_instruction` from `bytecode_parser.rs`.  The source transmutes
the `u16` into `InstructionType`; the model keeps the bit pattern. -/
def read_instruction : ReadM Instruction :=
  rbind read_u16 fun ins_type =>
    rbind (read_vector read_u32) fun args =>
      rbind read_u32 fun line =>
        rbind read_u32 fun column => fun input =>
          Except.ok (Instruction.mk ins_type args line column, input)

/-- `read_compiled_code` from `bytecode_parser.rs`.  The nested recursion
through `vector<CompiledCode>` terminates in the source because each level
consumes input; here a fuel argument bounds the nesting depth, and `parse`
passes more fuel than any input can nest (every nesting level consumes
bytes), so the out-of-fuel branch is unreachable on every byte stream. -/
def read_compiled_code : Nat → ReadM CompiledCode
  | 0 => fun _ => Except.error ParserError.invalidInteger
  | fuel + 1 =>
    rbind read_string fun name =>
    rbind read_string fun file =>
    rbind read_u32 fun line =>
    rbind read_u32 fun args =>
    rbind read_u32 fun req_args =>
    rbind read_u8 fun rest_arg =>
    rbind (read_vector read_string) fun locals =>
    rbind (read_vector read_instruction) fun instructions =>
    rbind (read_vector read_i64) fun int_literals =>
    rbind (read_vector read_f64) fun float_literals =>
    rbind (read_vector read_string) fun str_literals =>
    rbind (read_vector (read_compiled_code fuel)) fun code_objects => fun input =>
      Except.ok
        (CompiledCode.mk name file line args req_args (rest_arg == 1) locals
          instructions int_literals float_literals str_literals code_objects,
          input)

/-- The bytecode signature `"aeon"` from `bytecode_parser.rs`. -/
def SIGNATURE_BYTES : List Nat := [97, 101, 111, 110]

/-- The bytecode version from `bytecode_parser.rs`. -/
def VERSION : Nat := 1

/-- The signature-verification loop of `parse`: each expected byte is read
(failing with `InvalidSignature` at end of stream) and compared. -/
def check_signature : List Nat → ReadM Unit
  | [] => fun input => Except.ok ((), input)
  | expected :: more => fun input =>
    match input with
    | [] => Except.error ParserError.invalidSignature
    | b :: rest =>
      if b ≠ expected then Except.error ParserError.invalidSignature
      else check_signature more rest

/-- `parse` from `bytecode_parser.rs`: verify the signature and the
version, then read the single top-level `CompiledCode` (trailing bytes are
ignored, as in the source). -/
def parse (input : List Nat) : Except ParserError CompiledCode :=
  match check_signature SIGNATURE_BYTES input with
  | Except.error e => Except.error e
  | Except.ok (_, rest1) =>
    match rest1 with
    | [] => Except.error ParserError.invalidVersion
    | v :: rest2 =>
      if v ≠ VERSION then Except.error ParserError.invalidVersion
      else
        match read_compiled_code (input.length + 1) rest2 with
        | Except.error e => Except.error e
        | Except.ok (code, _) => Except.ok code

/-- Modelled from the spec: big-endian encoding of a value in `w` bytes
(§6 primitives; the first byte is the most significant). -/
def encode_be : Nat → Nat → List Nat
  | 0, _ => []
  | w + 1, value => (value / 256 ^ w) % 256 :: encode_be w value

/-- Modelled from the spec: `u8` encoding. -/
def encode_u8 (v : Nat) : List Nat := [v % 256]

/-- Modelled from the spec: `u16` big-endian encoding. -/
def encode_u16 (v : Nat) : List Nat := encode_be 2 v

/-- Modelled from the spec: `u32` big-endian encoding. -/
def encode_u32 (v : Nat) : List Nat := encode_be 4 v

/-- Modelled from the spec: `u64` big-endian encoding. -/
def encode_u64 (v : Nat) : List Nat := encode_be 8 v

/-- Modelled from the spec: `i64` big-endian encoding of a 64-bit
pattern. -/
def encode_i64 (v : Nat) : List Nat := encode_be 8 v

/-- Modelled from the spec: `f64` big-endian encoding of a 64-bit
pattern. -/
def encode_f64 (v : Nat) : List Nat := encode_be 8 v

/-- Modelled from the spec: `string` = `u64` length then the UTF-8
bytes. -/
def encode_string (s : List Nat) : List Nat :=
  encode_u64 s.length ++ s

/-- Concatenated encodings of the items of a list. -/
def encode_list {α : Type} (enc : α → List Nat) : List α → List Nat
  | [] => []
  | x :: xs => enc x ++ encode_list enc xs

/-- Modelled from the spec: `vector<T>` = `u64` count then the items. -/
def encode_vector {α : Type} (enc : α → List Nat) (l : List α) : List Nat :=
  encode_u64 l.length ++ encode_list enc l

/-- Modelled from the spec: the §6 Instruction record. -/
def encode_instruction (i : Instruction) : List Nat :=
  encode_u16 i.instruction_type ++ encode_vector encode_u32 i.arguments ++
    encode_u32 i.line ++ encode_u32 i.column

mutual

/-- Modelled from the spec: the §6 CompiledCode record, fields in order. -/
def encode_compiled_code : CompiledCode → List Nat
  | .mk name file line args req rest locals instrs ints floats strs codes =>
    encode_string name ++ encode_string file ++ encode_u32 line ++
      encode_u32 args ++ encode_u32 req ++ encode_u8 (if rest then 1 else 0) ++
      encode_vector encode_string locals ++
      encode_vector encode_instruction instrs ++
      encode_vector encode_i64 ints ++
      encode_vector encode_f64 floats ++
      encode_vector encode_string strs ++
      (encode_u64 codes.length ++ encode_code_list codes)

/-- Concatenated encodings of nested code objects. -/
def encode_code_list : List CompiledCode → List Nat
  | [] => []
  | c :: cs => encode_compiled_code c ++ encode_code_list cs

end

/-- Modelled from the spec: a whole §6 bytecode file — signature, version,
one top-level CompiledCode record. -/
def encode_aeon_file (c : CompiledCode) : List Nat :=
  SIGNATURE_BYTES ++ [VERSION] ++ encode_compiled_code c

/-- The Rust type invariant of an `Instruction` value: every numeric field
fits its machine width. -/
def wf_instruction (i : Instruction) : Bool :=
  decide (i.instruction_type < 2 ^ 16) && decide (i.arguments.length < 2 ^ 64) &&
    i.arguments.all (fun a => decide (a < 2 ^ 32)) &&
    decide (i.line < 2 ^ 32) && decide (i.column < 2 ^ 32)

/-- The Rust type invariant of a `String` value: valid UTF-8 whose length
fits `usize`. -/
def wf_string (s : List Nat) : Bool :=
  utf8_valid s && decide (s.length < 2 ^ 64)

mutual

/-- The Rust type invariant of a `CompiledCode` value: strings are valid
UTF-8, numeric fields fit their machine widths, vector lengths fit `u64`,
and nested code objects are well-formed in turn. -/
def wf_code : CompiledCode → Bool
  | .mk name file line args req _ locals instrs ints floats strs codes =>
    wf_string name && wf_string file &&
      decide (line < 2 ^ 32) && decide (args < 2 ^ 32) && decide (req < 2 ^ 32) &&
      decide (locals.length < 2 ^ 64) && locals.all wf_string &&
      decide (instrs.length < 2 ^ 64) && instrs.all wf_instruction &&
      decide (ints.length < 2 ^ 64) && ints.all (fun v => decide (v < 2 ^ 64)) &&
      decide (floats.length < 2 ^ 64) && floats.all (fun v => decide (v < 2 ^ 64)) &&
      decide (strs.length < 2 ^ 64) && strs.all wf_string &&
      decide (codes.length < 2 ^ 64) && wf_code_list codes

def wf_code_list : List CompiledCode → Bool
  | [] => true
  | c :: cs => wf_code c && wf_code_list cs

end

/-- The error kinds that a byte-stream read can produce: everything except
`InvalidFile` (produced only by `parse_file` when the file cannot be
opened) and `MissingByte` (declared but never constructed in the
source). -/
def stream_error (e : ParserError) : Bool :=
  match e with
  | ParserError.invalidSignature => true
  | ParserError.invalidVersion => true
  | ParserError.invalidString => true
  | ParserError.invalidInteger => true
  | ParserError.invalidFloat => true
  | _ => false

/-- A reader only ever fails with byte-stream error kinds. -/
def errors_ok {α : Type} (m : ReadM α) : Prop :=
  ∀ input e, m input = Except.error e → stream_error e = true

mutual

/-- Nesting depth of a CompiledCode value (used to size the parser's
fuel). -/
def code_depth : CompiledCode → Nat
  | .mk _ _ _ _ _ _ _ _ _ _ _ codes => code_list_depth codes + 1

def code_list_depth : List CompiledCode → Nat
  | [] => 0
  | c :: cs => max (code_depth c) (code_list_depth cs)

end

/-- An empty compiled-code object used to build concrete contexts. -/
def sample_code : CompiledCode :=
  CompiledCode.mk [] [] 0 0 0 false [] [] [] [] [] []

/-- A concrete top-level context. -/
def sample_parent_ctx : ExecutionContext :=
  ExecutionContext.with_object (ObjectPointer.mk 0 PtrKind.permanent) sample_code none

/-- A concrete context whose parent is `sample_parent_ctx`. -/
def sample_ctx : ExecutionContext :=
  (ExecutionContext.with_object (ObjectPointer.mk 1 PtrKind.permanent) sample_code
      none).set_parent
    sample_parent_ctx

/-- A concrete process at top level, used as witness input. -/
def sample_process : Process :=
  Process.from_code 1 sample_code (ObjectPointer.mk 5 PtrKind.permanent)

/-- The S1 minimal program from the spec (name `"main"`, file
`"test.aeon"`, line 4, everything else empty), used as concrete witness
input. -/
def s1_code : CompiledCode :=
  CompiledCode.mk [109, 97, 105, 110]
    [116, 101, 115, 116, 46, 97, 101, 111, 110] 4 0 0 false [] [] [] [] [] []

theorem run_write_barriers_eq_union (calls : List (ObjectPointer × ObjectPointer)) :
    ∀ rs : Finset ObjectPointer,
      run_write_barriers rs calls =
        rs ∪ ((calls.filter fun c => c.1.is_mature && c.2.is_young).map Prod.fst).toFinset := by
  induction calls with
  | nil => intro rs; simp [run_write_barriers]
  | cons c t ih =>
    intro rs
    have step : run_write_barriers rs (c :: t) =
        run_write_barriers (write_barrier rs c.1 c.2) t := rfl
    by_cases h : (c.1.is_mature && c.2.is_young) = true
    · have hf : (c :: t).filter (fun c => c.1.is_mature && c.2.is_young) =
          c :: t.filter (fun c => c.1.is_mature && c.2.is_young) := by
        rw [List.filter_cons]; simp [h]
      have hw : write_barrier rs c.1 c.2 = insert c.1 rs := by
        simp [write_barrier, h]
      rw [step, hw, ih, hf]
      simp only [List.map_cons, List.toFinset_cons]
      rw [Finset.insert_union, Finset.union_insert]
    · have hf : (c :: t).filter (fun c => c.1.is_mature && c.2.is_young) =
          t.filter (fun c => c.1.is_mature && c.2.is_young) := by
        rw [List.filter_cons]; simp [h]
      have hw : write_barrier rs c.1 c.2 = rs := by
        simp [write_barrier, h]
      rw [step, hw, ih, hf]

theorem mem_push_pointers_of_reach {b : Binding} {q : ObjectPointer}
    (h : BindingReach b q) : q ∈ b.push_pointers := by
  induction h with
  | local_slot b q hmem =>
    obtain ⟨ls, s, par⟩ := b
    cases par with
    | none =>
      simp only [Binding.push_pointers, List.mem_append, List.mem_filterMap]
      exact Or.inl ⟨some q, hmem, rfl⟩
    | some pb =>
      simp only [Binding.push_pointers, List.mem_append, List.mem_filterMap]
      exact Or.inl (Or.inl ⟨some q, hmem, rfl⟩)
  | self_obj b =>
    obtain ⟨ls, s, par⟩ := b
    cases par with
    | none => simp [Binding.push_pointers, Binding.self_object]
    | some pb => simp [Binding.push_pointers, Binding.self_object]
  | parent b pb q hpar _ ih =>
    obtain ⟨ls, s, par⟩ := b
    cases par with
    | none => simp [Binding.parent] at hpar
    | some pb' =>
      have : pb' = pb := by simpa [Binding.parent] using hpar
      subst this
      simp only [Binding.push_pointers, List.mem_append]
      exact Or.inr ih

theorem find_parent_loop_eq_hop :
    ∀ (n : Nat) (c : ExecutionContext), find_parent_loop c.parent n = hop (n + 1) c := by
  intro n
  induction n with
  | zero =>
    intro c
    cases hc : c.parent with
    | none => simp [find_parent_loop, hop, hc]
    | some p => simp [find_parent_loop, hop, hc]
  | succ n ih =>
    intro c
    cases hc : c.parent with
    | none => simp [find_parent_loop, hop, hc]
    | some p =>
      have : hop (n + 1 + 1) c = hop (n + 1) p := by simp [hop, hc]
      rw [this, ← ih p]
      simp [find_parent_loop]

theorem hop_eq_none_iff :
    ∀ (k : Nat) (c : ExecutionContext), hop k c = none ↔ ancestor_count c < k := by
  intro k
  induction k with
  | zero =>
    intro c
    simp [hop]
  | succ k ih =>
    intro c
    obtain ⟨r, b, cd, p, ii, rr⟩ := c
    cases p with
    | none =>
      simp [hop, ExecutionContext.parent, ancestor_count]
    | some p =>
      have hpar : (ExecutionContext.mk r b cd (some p) ii rr).parent = some p := rfl
      simp only [hop, hpar, ancestor_count, ih p]
      omega

theorem rbind_ok {α β : Type} (m : ReadM α) (f : α → ReadM β) (input : List Nat)
    (a : α) (rest : List Nat) (h : m input = Except.ok (a, rest)) :
    rbind m f input = f a rest := by
  unfold rbind
  rw [h]

theorem rbind_error {α β : Type} (m : ReadM α) (f : α → ReadM β)
    (input : List Nat) (e : ParserError) (h : m input = Except.error e) :
    rbind m f input = Except.error e := by
  unfold rbind
  rw [h]

theorem encode_be_length (w : Nat) : ∀ v : Nat, (encode_be w v).length = w := by
  induction w with
  | zero => intro v; rfl
  | succ w ih => intro v; simp [encode_be, ih]

theorem read_be_loop_encode (err : ParserError) :
    ∀ (w acc v : Nat) (rest : List Nat),
      read_be_loop err acc w (encode_be w v ++ rest) =
        Except.ok (acc * 256 ^ w + v % 256 ^ w, rest) := by
  intro w
  induction w with
  | zero =>
    intro acc v rest
    simp [encode_be, read_be_loop, Nat.mod_one]
  | succ w ih =>
    intro acc v rest
    simp only [encode_be, List.cons_append, read_be_loop]
    rw [ih]
    have harith : (acc * 256 + v / 256 ^ w % 256) * 256 ^ w + v % 256 ^ w =
        acc * 256 ^ (w + 1) + v % 256 ^ (w + 1) := by
      rw [pow_succ, Nat.mod_mul]
      ring
    rw [harith]

theorem read_be_encode (w v : Nat) (err : ParserError) (rest : List Nat)
    (h : v < 256 ^ w) :
    read_be w err (encode_be w v ++ rest) = Except.ok (v, rest) := by
  unfold read_be
  rw [read_be_loop_encode]
  simp [Nat.mod_eq_of_lt h]

theorem read_u8_encode (v : Nat) (rest : List Nat) (h : v < 256) :
    read_u8 (encode_u8 v ++ rest) = Except.ok (v, rest) := by
  simp [read_u8, encode_u8, Nat.mod_eq_of_lt h]

theorem read_u16_encode (v : Nat) (rest : List Nat) (h : v < 2 ^ 16) :
    read_u16 (encode_u16 v ++ rest) = Except.ok (v, rest) := by
  apply read_be_encode
  norm_num at h ⊢
  exact h

theorem read_u32_encode (v : Nat) (rest : List Nat) (h : v < 2 ^ 32) :
    read_u32 (encode_u32 v ++ rest) = Except.ok (v, rest) := by
  apply read_be_encode
  norm_num at h ⊢
  exact h

theorem read_u64_encode (v : Nat) (rest : List Nat) (h : v < 2 ^ 64) :
    read_u64 (encode_u64 v ++ rest) = Except.ok (v, rest) := by
  apply read_be_encode
  norm_num at h ⊢
  exact h

theorem read_i64_encode (v : Nat) (rest : List Nat) (h : v < 2 ^ 64) :
    read_i64 (encode_i64 v ++ rest) = Except.ok (v, rest) := by
  apply read_be_encode
  norm_num at h ⊢
  exact h

theorem read_f64_encode (v : Nat) (rest : List Nat) (h : v < 2 ^ 64) :
    read_f64 (encode_f64 v ++ rest) = Except.ok (v, rest) := by
  apply read_be_encode
  norm_num at h ⊢
  exact h

theorem take_bytes_encode : ∀ (bs rest : List Nat),
    take_bytes bs.length (bs ++ rest) = Except.ok (bs, rest) := by
  intro bs
  induction bs with
  | nil => intro rest; rfl
  | cons b t ih =>
    intro rest
    simp only [List.length_cons, List.cons_append, take_bytes, ih]

theorem read_string_encode (s : List Nat) (h : wf_string s = true) :
    ∀ rest : List Nat, read_string (encode_string s ++ rest) = Except.ok (s, rest) := by
  intro rest
  simp only [wf_string, Bool.and_eq_true, decide_eq_true_eq] at h
  unfold read_string encode_string
  rw [List.append_assoc]
  rw [rbind_ok _ _ _ _ _ (read_u64_encode s.length (s ++ rest) h.2)]
  rw [rbind_ok _ _ _ _ _ (take_bytes_encode s rest)]
  simp [h.1]

theorem read_items_encode {α : Type} (reader : ReadM α) (enc : α → List Nat) :
    ∀ (l : List α),
      (∀ x ∈ l, ∀ r : List Nat, reader (enc x ++ r) = Except.ok (x, r)) →
      ∀ rest : List Nat,
        read_items reader l.length (encode_list enc l ++ rest) =
          Except.ok (l, rest) := by
  intro l
  induction l with
  | nil => intro _ rest; rfl
  | cons x t ih =>
    intro h rest
    simp only [List.length_cons, read_items, encode_list, List.append_assoc]
    rw [rbind_ok _ _ _ _ _ (h x (List.mem_cons_self x t) (encode_list enc t ++ rest))]
    rw [rbind_ok _ _ _ _ _ (ih (fun y hy r => h y (List.mem_cons_of_mem x hy) r) rest)]

theorem read_vector_encode {α : Type} (reader : ReadM α) (enc : α → List Nat)
    (l : List α) (hlen : l.length < 2 ^ 64)
    (h : ∀ x ∈ l, ∀ r : List Nat, reader (enc x ++ r) = Except.ok (x, r)) :
    ∀ rest : List Nat,
      read_vector reader (encode_vector enc l ++ rest) = Except.ok (l, rest) := by
  intro rest
  unfold read_vector encode_vector
  rw [List.append_assoc]
  rw [rbind_ok _ _ _ _ _ (read_u64_encode l.length (encode_list enc l ++ rest) hlen)]
  exact read_items_encode reader enc l h rest

theorem read_instruction_encode (i : Instruction) (h : wf_instruction i = true) :
    ∀ rest : List Nat,
      read_instruction (encode_instruction i ++ rest) = Except.ok (i, rest) := by
  intro rest
  obtain ⟨t, args, line, col⟩ := i
  simp only [wf_instruction, Bool.and_eq_true, decide_eq_true_eq,
    List.all_eq_true] at h
  obtain ⟨⟨⟨⟨ht, hlen⟩, hargs⟩, hline⟩, hcol⟩ := h
  unfold read_instruction encode_instruction
  simp only [List.append_assoc]
  rw [rbind_ok _ _ _ _ _ (read_u16_encode t _ ht)]
  rw [rbind_ok _ _ _ _ _
    (read_vector_encode read_u32 encode_u32 args hlen
      (fun x hx r => read_u32_encode x r (by simpa using hargs x hx)) _)]
  rw [rbind_ok _ _ _ _ _ (read_u32_encode line _ hline)]
  rw [rbind_ok _ _ _ _ _ (read_u32_encode col rest hcol)]

theorem wf_code_list_mem : ∀ (l : List CompiledCode), wf_code_list l = true →
    ∀ x ∈ l, wf_code x = true := by
  intro l
  induction l with
  | nil => intro _ x hx; cases hx
  | cons c cs ih =>
    intro h x hx
    simp only [wf_code_list, Bool.and_eq_true] at h
    cases hx with
    | head => exact h.1
    | tail _ hx => exact ih h.2 x hx

theorem code_list_depth_mem : ∀ (l : List CompiledCode) (x : CompiledCode),
    x ∈ l → code_depth x ≤ code_list_depth l := by
  intro l
  induction l with
  | nil => intro x hx; cases hx
  | cons c cs ih =>
    intro x hx
    simp only [code_list_depth]
    cases hx with
    | head => exact Nat.le_max_left _ _
    | tail _ hx => exact le_trans (ih x hx) (Nat.le_max_right _ _)

theorem code_depth_pos (c : CompiledCode) : 1 ≤ code_depth c := by
  obtain ⟨_, _, _, _, _, _, _, _, _, _, _, codes⟩ := c
  simp only [code_depth]
  omega

theorem encode_code_list_eq : ∀ l : List CompiledCode,
    encode_code_list l = encode_list encode_compiled_code l := by
  intro l
  induction l with
  | nil => rfl
  | cons c cs ih => simp only [encode_code_list, encode_list, ih]

theorem read_compiled_code_encode :
    ∀ (fuel : Nat) (c : CompiledCode), code_depth c ≤ fuel → wf_code c = true →
      ∀ rest : List Nat,
        read_compiled_code fuel (encode_compiled_code c ++ rest) =
          Except.ok (c, rest) := by
  intro fuel
  induction fuel with
  | zero =>
    intro c hd _ _
    have := code_depth_pos c
    omega
  | succ fuel ih =>
    intro c hd hwf rest
    obtain ⟨name, file, line, args, req, rst, locals, instrs, ints, floats,
      strs, codes⟩ := c
    simp only [wf_code, Bool.and_eq_true, decide_eq_true_eq,
      List.all_eq_true] at hwf
    obtain ⟨⟨⟨⟨⟨⟨⟨⟨⟨⟨⟨⟨⟨⟨⟨⟨h1, h2⟩, h3⟩, h4⟩, h5⟩, h6⟩, h7⟩, h8⟩, h9⟩,
      h10⟩, h11⟩, h12⟩, h13⟩, h14⟩, h15⟩, h16⟩, h17⟩ := hwf
    have hdc : code_list_depth codes ≤ fuel := by
      simp only [code_depth] at hd
      omega
    have helem : ∀ x ∈ codes, ∀ r : List Nat,
        read_compiled_code fuel (encode_compiled_code x ++ r) =
          Except.ok (x, r) := by
      intro x hx r
      exact ih x (le_trans (code_list_depth_mem codes x hx) hdc)
        (wf_code_list_mem codes h17 x hx) r
    have hcodes := read_vector_encode (read_compiled_code fuel)
      encode_compiled_code codes h16 helem rest
    rw [encode_vector, List.append_assoc] at hcodes
    simp only [read_compiled_code, encode_compiled_code, List.append_assoc,
      encode_code_list_eq]
    rw [rbind_ok _ _ _ _ _ (read_string_encode name h1 _)]
    rw [rbind_ok _ _ _ _ _ (read_string_encode file h2 _)]
    rw [rbind_ok _ _ _ _ _ (read_u32_encode line _ h3)]
    rw [rbind_ok _ _ _ _ _ (read_u32_encode args _ h4)]
    rw [rbind_ok _ _ _ _ _ (read_u32_encode req _ h5)]
    rw [rbind_ok _ _ _ _ _
      (read_u8_encode (if rst then 1 else 0) _ (by cases rst <;> norm_num))]
    rw [rbind_ok _ _ _ _ _
      (read_vector_encode read_string encode_string locals h6
        (fun x hx r => read_string_encode x (by
          have := h7 x hx
          simpa [wf_string] using this) r) _)]
    rw [rbind_ok _ _ _ _ _
      (read_vector_encode read_instruction encode_instruction instrs h8
        (fun x hx r => read_instruction_encode x (by
          have := h9 x hx
          simpa [wf_instruction] using this) r) _)]
    rw [rbind_ok _ _ _ _ _
      (read_vector_encode read_i64 encode_i64 ints h10
        (fun x hx r => read_i64_encode x r (h11 x hx)) _)]
    rw [rbind_ok _ _ _ _ _
      (read_vector_encode read_f64 encode_f64 floats h12
        (fun x hx r => read_f64_encode x r (h13 x hx)) _)]
    rw [rbind_ok _ _ _ _ _
      (read_vector_encode read_string encode_string strs h14
        (fun x hx r => read_string_encode x (by
          have := h15 x hx
          simpa [wf_string] using this) r) _)]
    rw [rbind_ok _ _ _ _ _ hcodes]
    cases rst <;> rfl

theorem check_signature_self : ∀ (sig rest : List Nat),
    check_signature sig (sig ++ rest) = Except.ok ((), rest) := by
  intro sig
  induction sig with
  | nil => intro rest; rfl
  | cons e more ih =>
    intro rest
    simp [check_signature, ih]

mutual

theorem code_depth_le_encode : ∀ c : CompiledCode,
    code_depth c ≤ (encode_compiled_code c).length
  | .mk name file line args req rst locals instrs ints floats strs codes => by
    have h := code_list_depth_le_encode codes
    simp only [code_depth, encode_compiled_code, List.length_append,
      encode_string, encode_u64, encode_u32, encode_u8, encode_vector,
      encode_be_length, List.length_cons, List.length_nil]
    omega

theorem code_list_depth_le_encode : ∀ l : List CompiledCode,
    code_list_depth l ≤ (encode_code_list l).length
  | [] => by simp [code_list_depth, encode_code_list]
  | c :: cs => by
    have h1 := code_depth_le_encode c
    have h2 := code_list_depth_le_encode cs
    simp only [code_list_depth, encode_code_list, List.length_append]
    omega

end

end Aeon

namespace Aeon

/-- C1: `set_status_without_overwriting_gc_status(new_status)` leaves the
state unchanged when the status is `SuspendedByGc`; otherwise, when the
`suspend_for_gc` flag is set, the status becomes `SuspendedByGc` (not
`new_status`) and the flag is cleared; otherwise the status becomes
`new_status`.  In particular a `Running` process with the flag set that
requests `Finished` ends up `SuspendedByGc` with the flag cleared. -/
theorem set_status_without_overwriting_gc_status_spec (st : StatusState)
    (ns : ProcessStatus) :
    (st.status = ProcessStatus.suspendedByGc →
        set_status_without_overwriting_gc_status st ns = st) ∧
    (st.status ≠ ProcessStatus.suspendedByGc → st.suspend_for_gc = true →
        set_status_without_overwriting_gc_status st ns =
          { status := ProcessStatus.suspendedByGc, suspend_for_gc := false }) ∧
    (st.status ≠ ProcessStatus.suspendedByGc → st.suspend_for_gc = false →
        set_status_without_overwriting_gc_status st ns =
          { status := ns, suspend_for_gc := false }) ∧
    (set_status_without_overwriting_gc_status
          { status := ProcessStatus.running, suspend_for_gc := true }
          ProcessStatus.finished =
        { status := ProcessStatus.suspendedByGc, suspend_for_gc := false }) := by
  obtain ⟨s, f⟩ := st
  refine ⟨?_, ?_, ?_, by decide⟩ <;>
    cases s <;> cases f <;>
      simp [set_status_without_overwriting_gc_status]

/-- Witness for C1: the S6 scenario, via the second conjunct. -/
theorem set_status_without_overwriting_gc_status_spec_witness :
    set_status_without_overwriting_gc_status
        { status := ProcessStatus.running, suspend_for_gc := true }
        ProcessStatus.finished =
      { status := ProcessStatus.suspendedByGc, suspend_for_gc := false } :=
  (set_status_without_overwriting_gc_status_spec
      { status := ProcessStatus.running, suspend_for_gc := true }
      ProcessStatus.finished).2.1 (by decide) rfl

/-- C2: a single `write_barrier(a, b)` inserts `a` (never `b`) into the
remembered set exactly when `a` is mature and `b` is young, and leaves the
set unchanged otherwise; consequently, starting from an empty remembered set,
after any sequence of calls the remembered set is exactly the set of
written-to pointers `a` for which some call had `a` mature and `b` young. -/
theorem write_barrier_remembered_set_exact
    (calls : List (ObjectPointer × ObjectPointer)) :
    (∀ (rs : Finset ObjectPointer) (a b : ObjectPointer),
        (a.is_mature && b.is_young) = true → write_barrier rs a b = insert a rs) ∧
    (∀ (rs : Finset ObjectPointer) (a b : ObjectPointer),
        (a.is_mature && b.is_young) = false → write_barrier rs a b = rs) ∧
    run_write_barriers ∅ calls =
      ((calls.filter fun c => c.1.is_mature && c.2.is_young).map Prod.fst).toFinset := by
  refine ⟨?_, ?_, ?_⟩
  · intro rs a b h; simp [write_barrier, h]
  · intro rs a b h; simp [write_barrier, h]
  · rw [run_write_barriers_eq_union]; simp

/-- Witness for C2: a mature-to-young write remembers the written-to pointer. -/
theorem write_barrier_remembered_set_exact_witness :
    write_barrier ∅ (ObjectPointer.mk 0 PtrKind.mature)
        (ObjectPointer.mk 1 PtrKind.young) =
      {ObjectPointer.mk 0 PtrKind.mature} :=
  (write_barrier_remembered_set_exact []).1 ∅
    (ObjectPointer.mk 0 PtrKind.mature) (ObjectPointer.mk 1 PtrKind.young)
    (by decide)

/-- C3 counterexample: `find_parent(0)` does not mean "this context's
parent".  On a context with a parent, the `usize` underflow of `depth - 1`
makes the call return `none` (release build; a debug build panics), not the
parent the claim promises. -/
theorem find_parent_zero_counterexample :
    sample_ctx.parent = some sample_parent_ctx ∧
    sample_ctx.find_parent 0 = none := by
  refine ⟨rfl, ?_⟩
  unfold ExecutionContext.find_parent
  have h0 : usize_sub 0 1 = USIZE - 1 := by unfold usize_sub USIZE; omega
  rw [h0, find_parent_loop_eq_hop, hop_eq_none_iff]
  have hc : ancestor_count sample_ctx = 1 := rfl
  rw [hc]
  unfold USIZE
  omega

/-- C3 (amended): for every depth `k` with `1 ≤ k < 2^64`,
`ctx.find_parent(k)` returns the ancestor exactly `k` hops up the parent
chain (equivalently, the result of applying `parent()` exactly `k - 1` times
starting from `ctx.parent()`), and returns `none` iff the chain is shorter
than `k`; for the edge case `k = 0` the `usize` subtraction `depth - 1`
underflows, so `find_parent(0)` returns `none` for every context (with fewer
than `2^64` ancestors) rather than the context's parent. -/
theorem find_parent_spec (c : ExecutionContext) (k : Nat) (h1 : 1 ≤ k)
    (h2 : k < USIZE) :
    c.find_parent k = hop k c ∧
    (c.find_parent k = none ↔ ancestor_count c < k) ∧
    (ancestor_count c < USIZE → c.find_parent 0 = none) := by
  have hsub : usize_sub k 1 = k - 1 := by
    unfold usize_sub USIZE at *
    omega
  have e1 : c.find_parent k = hop k c := by
    unfold ExecutionContext.find_parent
    have hk : k - 1 + 1 = k := by omega
    rw [hsub, find_parent_loop_eq_hop (k - 1) c, hk]
  refine ⟨e1, by rw [e1]; exact hop_eq_none_iff k c, ?_⟩
  intro hc
  unfold ExecutionContext.find_parent
  have h0 : usize_sub 0 1 = USIZE - 1 := by unfold usize_sub USIZE; omega
  rw [h0, find_parent_loop_eq_hop, hop_eq_none_iff]
  unfold USIZE at *
  omega

/-- Witness for C3: depth 1 on a two-deep chain finds the immediate
parent. -/
theorem find_parent_spec_witness :
    1 ≤ 1 ∧ 1 < USIZE ∧ sample_ctx.find_parent 1 = hop 1 sample_ctx ∧
      sample_ctx.find_parent 1 = some sample_parent_ctx := by
  have h2 : (1 : Nat) < USIZE := by unfold USIZE; norm_num
  have h := find_parent_spec sample_ctx 1 (le_refl 1) h2
  exact ⟨le_refl 1, h2, h.1, by rw [h.1]; rfl⟩

/-- C4: a freshly created process with `self_object o`, after
`set_local(0, p)` and `set_register(0, p)`, yields exactly 3 handles from
`roots()` (self, local 0, register 0); and in general every pointer
reachable from the context stack via binding locals, parent bindings,
register slots, or `self` appears among the handles `roots()` returns. -/
theorem roots_spec :
    (∀ (pid : Nat) (code : CompiledCode) (o ptr : ObjectPointer),
        (((Process.from_code pid code o).set_local 0 ptr).set_register 0
              ptr).roots.length = 3) ∧
    (∀ (p : Process) (q : ObjectPointer), Reachable p q → q ∈ p.roots) := by
  constructor
  · intro pid code o ptr
    rfl
  · intro p q hreach
    obtain ⟨c, hc, hq⟩ := hreach
    unfold Process.roots
    rw [List.mem_flatMap]
    refine ⟨c, hc, ?_⟩
    rw [List.mem_append]
    cases hq with
    | inl hb => exact Or.inl (mem_push_pointers_of_reach hb)
    | inr hr =>
      refine Or.inr ?_
      simp only [Register.push_pointers, List.mem_filterMap]
      exact ⟨some q, hr, rfl⟩

/-- Witness for C4: the S4 count on concrete pointers, and the concrete
`self` pointer is produced by `roots()`. -/
theorem roots_spec_witness :
    (((Process.from_code 1 sample_code (ObjectPointer.mk 5 PtrKind.permanent)).set_local
            0 (ObjectPointer.mk 7 PtrKind.young)).set_register 0
          (ObjectPointer.mk 7 PtrKind.young)).roots.length = 3 ∧
    ObjectPointer.mk 5 PtrKind.permanent ∈ sample_process.roots := by
  constructor
  · exact roots_spec.1 1 sample_code (ObjectPointer.mk 5 PtrKind.permanent)
      (ObjectPointer.mk 7 PtrKind.young)
  · refine roots_spec.2 sample_process (ObjectPointer.mk 5 PtrKind.permanent)
      ⟨sample_process.context, ?_, Or.inl ?_⟩
    · exact List.mem_singleton.mpr rfl
    · exact BindingReach.self_obj sample_process.context.binding

/-- C10: on a process whose current context has no parent, `pop_context()`
returns without failing and changes nothing; likewise `pop_call_frame()`
when the current call frame has no parent. -/
theorem pop_context_and_call_frame_top_level (p : Process) :
    (p.context.parent = none → p.pop_context = p) ∧
    (p.call_frame.parent = none → p.pop_call_frame = p) := by
  constructor
  · intro h
    unfold Process.pop_context
    rw [h]
  · intro h
    unfold Process.pop_call_frame
    rw [h]

/-- Witness for C10: popping at top level on a concrete fresh process is a
no-op. -/
theorem pop_context_and_call_frame_top_level_witness :
    sample_process.pop_context = sample_process ∧
    sample_process.pop_call_frame = sample_process :=
  ⟨(pop_context_and_call_frame_top_level sample_process).1 rfl,
   (pop_context_and_call_frame_top_level sample_process).2 rfl⟩

end Aeon

namespace Aeon

/-- C5: encoding any well-formed `CompiledCode` according to the section 6
grammar (signature, version byte 1, then the record with its strings,
integers, flags and nested vectors in big-endian form) and re-parsing with
`parse` succeeds and yields the same value — hence equal on every field
(name, file, line, arguments, required_arguments, rest_argument, locals,
instructions, integer_literals, float_literals, string_literals,
code_objects).  Well-formedness is exactly the Rust type invariant (valid
UTF-8 strings, fields within machine widths). -/
theorem parse_roundtrip (c : CompiledCode) (h : wf_code c = true) :
    parse (encode_aeon_file c) = Except.ok c := by
  have hdepth : code_depth c ≤
      (SIGNATURE_BYTES ++ ([VERSION] ++ encode_compiled_code c)).length + 1 := by
    have h1 := code_depth_le_encode c
    simp only [List.length_append]
    omega
  have hrcc := read_compiled_code_encode _ c hdepth h []
  rw [List.append_nil] at hrcc
  unfold parse encode_aeon_file
  rw [List.append_assoc, check_signature_self]
  simp only [List.singleton_append, VERSION] at hrcc ⊢
  simp only [ne_eq, not_true_eq_false, if_false]
  rw [hrcc]

/-- Witness for C5: the S1 program round-trips. -/
theorem parse_roundtrip_witness :
    wf_code s1_code = true ∧ parse (encode_aeon_file s1_code) = Except.ok s1_code :=
  ⟨rfl, parse_roundtrip s1_code rfl⟩

end Aeon

namespace Aeon

theorem read_be_loop_short (err : ParserError) :
    ∀ (w acc : Nat) (l : List Nat), l.length < w →
      read_be_loop err acc w l = Except.error err := by
  intro w
  induction w with
  | zero => intro acc l h; omega
  | succ w ih =>
    intro acc l h
    cases l with
    | nil => rfl
    | cons b rest =>
      simp only [read_be_loop]
      exact ih _ rest (by simp at h; omega)

theorem take_bytes_short : ∀ (n : Nat) (l : List Nat), l.length < n →
    take_bytes n l = Except.error ParserError.invalidString := by
  intro n
  induction n with
  | zero => intro l h; omega
  | succ n ih =>
    intro l h
    cases l with
    | nil => rfl
    | cons b rest =>
      simp only [take_bytes]
      rw [ih rest (by simp at h; omega)]

theorem check_signature_short : ∀ (sig l : List Nat), l.length < sig.length →
    check_signature sig l = Except.error ParserError.invalidSignature := by
  intro sig
  induction sig with
  | nil => intro l h; simp at h
  | cons e more ih =>
    intro l h
    cases l with
    | nil => rfl
    | cons b rest =>
      simp only [check_signature]
      by_cases hbe : b = e
      · subst hbe
        simp only [ne_eq, not_true_eq_false, if_false]
        exact ih rest (by simp at h; omega)
      · simp [hbe]

/-- C6: a byte stream that ends prematurely yields the error of the kind
being read at the truncation point, and no partial result: truncation
inside the 4-byte signature gives `InvalidSignature`, at the version byte
`InvalidVersion`, inside a string's declared content bytes `InvalidString`,
inside an integer `InvalidInteger`, and inside a float `InvalidFloat`. -/
theorem parse_truncation_errors (l1 l2 s : List Nat) (n : Nat)
    (h1 : l1.length < 4) (h2 : l2.length < 8) (h3 : s.length < n)
    (h4 : n < 2 ^ 64) :
    parse l1 = Except.error ParserError.invalidSignature ∧
    parse SIGNATURE_BYTES = Except.error ParserError.invalidVersion ∧
    read_string (encode_u64 n ++ s) = Except.error ParserError.invalidString ∧
    read_i64 l2 = Except.error ParserError.invalidInteger ∧
    read_f64 l2 = Except.error ParserError.invalidFloat := by
  refine ⟨?_, rfl, ?_, ?_, ?_⟩
  · unfold parse
    rw [check_signature_short SIGNATURE_BYTES l1 (by simpa [SIGNATURE_BYTES] using h1)]
  · unfold read_string
    rw [rbind_ok _ _ _ _ _ (read_u64_encode n s h4)]
    exact rbind_error _ _ _ _ (take_bytes_short n s h3)
  · exact read_be_loop_short ParserError.invalidInteger 8 0 l2 h2
  · exact read_be_loop_short ParserError.invalidFloat 8 0 l2 h2

/-- Witness for C6: concrete truncated streams for each error kind. -/
theorem parse_truncation_errors_witness :
    parse [97] = Except.error ParserError.invalidSignature ∧
    parse SIGNATURE_BYTES = Except.error ParserError.invalidVersion ∧
    read_string (encode_u64 2 ++ [97]) = Except.error ParserError.invalidString ∧
    read_i64 [0] = Except.error ParserError.invalidInteger ∧
    read_f64 [0] = Except.error ParserError.invalidFloat :=
  parse_truncation_errors [97] [0] [97] 2 (by decide) (by decide) (by decide)
    (by decide)

/-- C7: `read_string` reads a `u64` length and then consumes exactly that
many bytes, decoding them as UTF-8: with declared length 2 followed by the
content bytes of `"aeon"` it returns the prefix `"ae"` and leaves `"on"`
unconsumed; whenever the consumed bytes are not valid UTF-8 it returns
`InvalidString`, and whenever they are valid it returns exactly them. -/
theorem read_string_spec (n : Nat) (content rest : List Nat)
    (hn : n < 2 ^ 64) (hlen : content.length = n) :
    (utf8_valid content = true →
        read_string (encode_u64 n ++ (content ++ rest)) =
          Except.ok (content, rest)) ∧
    (utf8_valid content = false →
        read_string (encode_u64 n ++ (content ++ rest)) =
          Except.error ParserError.invalidString) ∧
    read_string (encode_u64 2 ++ [97, 101, 111, 110]) =
      Except.ok ([97, 101], [111, 110]) := by
  subst hlen
  refine ⟨?_, ?_, rfl⟩
  · intro hv
    unfold read_string
    rw [rbind_ok _ _ _ _ _ (read_u64_encode content.length _ hn)]
    rw [rbind_ok _ _ _ _ _ (take_bytes_encode content rest)]
    simp [hv]
  · intro hv
    unfold read_string
    rw [rbind_ok _ _ _ _ _ (read_u64_encode content.length _ hn)]
    rw [rbind_ok _ _ _ _ _ (take_bytes_encode content rest)]
    simp [hv]

/-- Witness for C7: the S3 scenario, via the success conjunct. -/
theorem read_string_spec_witness :
    utf8_valid [97, 101] = true ∧
    read_string (encode_u64 2 ++ ([97, 101] ++ [111, 110])) =
      Except.ok ([97, 101], [111, 110]) :=
  ⟨rfl, (read_string_spec 2 [97, 101] [111, 110] (by decide) rfl).1 rfl⟩

theorem foldl_schedule_queue : ∀ (l : List Nat) (t : Thread),
    (l.foldl Thread.schedule t).process_queue = t.process_queue ++ l := by
  intro l
  induction l with
  | nil => intro t; simp
  | cons x xs ih =>
    intro t
    rw [List.foldl_cons, ih]
    simp [Thread.schedule]

/-- C8: `schedule` appends to the end of the process queue and
`pop_process` removes from the end, so after any sequence of `schedule`
calls with no intervening pop, `pop_process` returns the most recently
scheduled process first (newest-first LIFO), leaving the earlier ones
queued. -/
theorem thread_schedule_pop_lifo (t : Thread) (earlier : List Nat) (task : Nat) :
    ((t.schedule task).process_queue = t.process_queue ++ [task]) ∧
    (((earlier ++ [task]).foldl Thread.schedule t).pop_process.1 = some task) ∧
    (((earlier ++ [task]).foldl Thread.schedule t).pop_process.2.process_queue =
      t.process_queue ++ earlier) := by
  have hq : ((earlier ++ [task]).foldl Thread.schedule t).process_queue =
      (t.process_queue ++ earlier) ++ [task] := by
    rw [foldl_schedule_queue, List.append_assoc]
  refine ⟨rfl, ?_, ?_⟩
  · have hfst : ((earlier ++ [task]).foldl Thread.schedule t).pop_process.1 =
        ((earlier ++ [task]).foldl Thread.schedule t).process_queue.getLast? := rfl
    rw [hfst, hq, List.getLast?_concat]
  · have hsnd : ((earlier ++ [task]).foldl Thread.schedule t).pop_process.2.process_queue =
        ((earlier ++ [task]).foldl Thread.schedule t).process_queue.dropLast := rfl
    rw [hsnd, hq, List.dropLast_concat]

end Aeon

namespace Aeon

theorem errors_ok_rbind {α β : Type} {m : ReadM α} {f : α → ReadM β}
    (hm : errors_ok m) (hf : ∀ a, errors_ok (f a)) : errors_ok (rbind m f) := by
  intro input e h
  unfold rbind at h
  cases hmi : m input with
  | error e2 =>
    rw [hmi] at h
    simp only [Except.error.injEq] at h
    subst h
    exact hm input e2 hmi
  | ok ar =>
    obtain ⟨a, rest⟩ := ar
    rw [hmi] at h
    exact hf a rest e h

theorem read_be_loop_errors (err : ParserError) :
    ∀ (w acc : Nat) (input : List Nat) (e : ParserError),
      read_be_loop err acc w input = Except.error e → e = err := by
  intro w
  induction w with
  | zero =>
    intro acc input e h
    simp [read_be_loop] at h
  | succ w ih =>
    intro acc input e h
    cases input with
    | nil =>
      simp only [read_be_loop, Except.error.injEq] at h
      exact h.symm
    | cons b rest =>
      simp only [read_be_loop] at h
      exact ih _ rest e h

theorem errors_ok_read_be (w : Nat) (err : ParserError)
    (herr : stream_error err = true) : errors_ok (read_be w err) := by
  intro input e h
  rw [read_be_loop_errors err w 0 input e h]
  exact herr

theorem errors_ok_read_u8 : errors_ok read_u8 := by
  intro input e h
  cases input with
  | nil =>
    simp only [read_u8, Except.error.injEq] at h
    rw [← h]
    rfl
  | cons b rest => simp [read_u8] at h

theorem errors_ok_read_u16 : errors_ok read_u16 :=
  errors_ok_read_be 2 ParserError.invalidInteger rfl

theorem errors_ok_read_i32 : errors_ok read_i32 :=
  errors_ok_read_be 4 ParserError.invalidInteger rfl

theorem errors_ok_read_u32 : errors_ok read_u32 :=
  errors_ok_read_i32

theorem errors_ok_read_i64 : errors_ok read_i64 :=
  errors_ok_read_be 8 ParserError.invalidInteger rfl

theorem errors_ok_read_u64 : errors_ok read_u64 :=
  errors_ok_read_i64

theorem errors_ok_read_f64 : errors_ok read_f64 :=
  errors_ok_read_be 8 ParserError.invalidFloat rfl

theorem errors_ok_take_bytes : ∀ n : Nat, errors_ok (take_bytes n) := by
  intro n
  induction n with
  | zero => intro input e h; simp [take_bytes] at h
  | succ n ih =>
    intro input e h
    cases input with
    | nil =>
      simp only [take_bytes, Except.error.injEq] at h
      rw [← h]
      rfl
    | cons b rest =>
      simp only [take_bytes] at h
      cases htb : take_bytes n rest with
      | error e2 =>
        rw [htb] at h
        simp only [Except.error.injEq] at h
        subst h
        exact ih rest e2 htb
      | ok pr =>
        obtain ⟨bs, r2⟩ := pr
        rw [htb] at h
        simp at h

theorem errors_ok_read_string : errors_ok read_string := by
  unfold read_string
  refine errors_ok_rbind errors_ok_read_u64 ?_
  intro size
  refine errors_ok_rbind (errors_ok_take_bytes size) ?_
  intro buff input e h
  by_cases hv : utf8_valid buff = true
  · simp [hv] at h
  · simp only [Bool.not_eq_true] at hv
    rw [hv] at h
    simp only [Bool.false_eq_true, if_false, Except.error.injEq] at h
    rw [← h]
    rfl

theorem errors_ok_read_items {α : Type} {reader : ReadM α}
    (hr : errors_ok reader) : ∀ n : Nat, errors_ok (read_items reader n) := by
  intro n
  induction n with
  | zero => intro input e h; simp [read_items] at h
  | succ n ih =>
    simp only [read_items]
    refine errors_ok_rbind hr ?_
    intro x
    refine errors_ok_rbind ih ?_
    intro xs input e h
    simp at h

theorem errors_ok_read_vector {α : Type} {reader : ReadM α}
    (hr : errors_ok reader) : errors_ok (read_vector reader) := by
  unfold read_vector
  exact errors_ok_rbind errors_ok_read_u64 fun n => errors_ok_read_items hr n

theorem errors_ok_read_instruction : errors_ok read_instruction := by
  unfold read_instruction
  refine errors_ok_rbind errors_ok_read_u16 fun t => ?_
  refine errors_ok_rbind (errors_ok_read_vector errors_ok_read_u32) fun args => ?_
  refine errors_ok_rbind errors_ok_read_u32 fun line => ?_
  refine errors_ok_rbind errors_ok_read_u32 fun col => ?_
  intro input e h
  simp at h

theorem errors_ok_read_compiled_code : ∀ fuel : Nat,
    errors_ok (read_compiled_code fuel) := by
  intro fuel
  induction fuel with
  | zero =>
    intro input e h
    simp only [read_compiled_code, Except.error.injEq] at h
    rw [← h]
    rfl
  | succ fuel ih =>
    simp only [read_compiled_code]
    refine errors_ok_rbind errors_ok_read_string fun name => ?_
    refine errors_ok_rbind errors_ok_read_string fun file => ?_
    refine errors_ok_rbind errors_ok_read_u32 fun line => ?_
    refine errors_ok_rbind errors_ok_read_u32 fun args => ?_
    refine errors_ok_rbind errors_ok_read_u32 fun req => ?_
    refine errors_ok_rbind errors_ok_read_u8 fun rst => ?_
    refine errors_ok_rbind (errors_ok_read_vector errors_ok_read_string) fun locals => ?_
    refine errors_ok_rbind (errors_ok_read_vector errors_ok_read_instruction) fun instrs => ?_
    refine errors_ok_rbind (errors_ok_read_vector errors_ok_read_i64) fun ints => ?_
    refine errors_ok_rbind (errors_ok_read_vector errors_ok_read_f64) fun floats => ?_
    refine errors_ok_rbind (errors_ok_read_vector errors_ok_read_string) fun strs => ?_
    refine errors_ok_rbind (errors_ok_read_vector ih) fun codes => ?_
    intro input e h
    simp at h

theorem check_signature_errors : ∀ (sig input : List Nat) (e : ParserError),
    check_signature sig input = Except.error e →
      e = ParserError.invalidSignature := by
  intro sig
  induction sig with
  | nil => intro input e h; simp [check_signature] at h
  | cons x more ih =>
    intro input e h
    cases input with
    | nil =>
      simp only [check_signature, Except.error.injEq] at h
      exact h.symm
    | cons b rest =>
      simp only [check_signature] at h
      by_cases hbx : b = x
      · subst hbx
        simp only [ne_eq, not_true_eq_false, if_false] at h
        exact ih rest e h
      · simp only [ne_eq, hbx, not_false_eq_true, if_true,
          Except.error.injEq] at h
        exact h.symm

theorem parse_stream_errors : ∀ (l : List Nat) (e : ParserError),
    parse l = Except.error e → stream_error e = true := by
  intro l e h
  unfold parse at h
  cases hcs : check_signature SIGNATURE_BYTES l with
  | error e2 =>
    rw [hcs] at h
    simp only [Except.error.injEq] at h
    subst h
    rw [check_signature_errors _ _ _ hcs]
    rfl
  | ok pr =>
    obtain ⟨u, rest1⟩ := pr
    rw [hcs] at h
    cases rest1 with
    | nil =>
      simp only [Except.error.injEq] at h
      rw [← h]
      rfl
    | cons v rest2 =>
      by_cases hv : v = VERSION
      · subst hv
        simp only [ne_eq, not_true_eq_false, if_false] at h
        cases hrc : read_compiled_code (l.length + 1) rest2 with
        | error e2 =>
          rw [hrc] at h
          simp only [Except.error.injEq] at h
          subst h
          exact errors_ok_read_compiled_code _ _ _ hrc
        | ok pr2 =>
          obtain ⟨code, r2⟩ := pr2
          rw [hrc] at h
          simp at h
      · simp only [ne_eq, hv, not_false_eq_true, if_true,
          Except.error.injEq] at h
        rw [← h]
        rfl

/-- C9: `parse` never returns `ParserError::MissingByte` (declared but
never constructed in the source) and never `ParserError::InvalidFile`
(produced only by `parse_file` when the file cannot be opened): every
possible failure of `parse` is one of `InvalidSignature`, `InvalidVersion`,
`InvalidString`, `InvalidInteger`, or `InvalidFloat`. -/
theorem parse_error_kinds (l : List Nat) :
    parse l ≠ Except.error ParserError.missingByte ∧
    parse l ≠ Except.error ParserError.invalidFile ∧
    (∀ e, parse l = Except.error e → stream_error e = true) := by
  refine ⟨?_, ?_, parse_stream_errors l⟩
  · intro h
    have := parse_stream_errors l _ h
    simp [stream_error] at this
  · intro h
    have := parse_stream_errors l _ h
    simp [stream_error] at this

/-- Witness for C9: the empty stream fails with a byte-stream error
kind. -/
theorem parse_error_kinds_witness :
    parse [] = Except.error ParserError.invalidSignature ∧
    stream_error ParserError.invalidSignature = true :=
  ⟨rfl, (parse_error_kinds []).2.2 ParserError.invalidSignature rfl⟩

end Aeon
